import Mathlib

/-!
Shallow embedding of `src/rezplugins/command/production_resolver_lib.py`
(the `ProductionResolverDatabase` class) and proofs about it.

The SQLite tables are modelled as Lean lists kept in rowid order (SQLite
returns rows of an unfiltered `SELECT` in rowid order, and every insert in
this module appends with a fresh autoincremented id).  Python `None` becomes
`Option.none`; Python truthiness on optional integers / strings is modelled
explicitly where the source relies on it.  Exceptions become explicit error
values; a mutating method that raises is modelled as returning the state it
had at the moment of the raise, so "mutates nothing" is expressible.
-/

namespace ProductionResolver

/-- A production context triple (project, category, entity), each nullable. -/
abbrev Ctx := Option String × Option String × Option String

/-- One row of the `context` table:
`context(context_id INTEGER PRIMARY KEY AUTOINCREMENT, project, category, entity)`. -/
structure ContextRow where
  context_id : Nat
  project : Option String
  category : Option String
  entity : Option String
  deriving Repr, DecidableEq

/-- One row of the `package` table:
`package(context_id INTEGER, name TEXT, step TEXT, software TEXT)`.
`rowid` is SQLite's implicit rowid, used by `remove_package`'s DELETE. -/
structure PackageRow where
  rowid : Nat
  context_id : Nat
  name : String
  step : Option String
  software : Option String
  deriving Repr, DecidableEq

/-- One row of the `history` audit table. -/
structure HistoryRow where
  user : String
  context : String
  package_name : String
  step : String
  software : String
  operation : Nat
  date : String
  comment : String
  deriving Repr, DecidableEq

/-- The database content: the three tables plus the autoincrement counters.
SQLite AUTOINCREMENT and rowids start at 1, so a fresh store has both
counters at 1. -/
structure Store where
  contexts : List ContextRow
  packages : List PackageRow
  history : List HistoryRow
  nextContextId : Nat
  nextRowId : Nat
  deriving Repr, DecidableEq

/-- A fresh (just created, empty) database file after `CREATE TABLE`s. -/
def Store.empty : Store := ⟨[], [], [], 1, 1⟩

/-- Mirrors the Python `HistoryEditOperation` IntEnum. -/
inductive HistoryEditOperation where
  | INSTALL
  | UNINSTALL
  deriving Repr, DecidableEq

/-- The integer value of the enum member (INSTALL = 1, UNINSTALL = 2). -/
def HistoryEditOperation.value : HistoryEditOperation → Nat
  | .INSTALL => 1
  | .UNINSTALL => 2

/-- Mirrors the Python `HistoryEdit` dataclass.  The `context` field stores
the caller's context sequence exactly as passed (not sanitized). -/
structure HistoryEdit where
  context : List (Option String)
  package_name : String
  step : Option String
  software : Option String
  operation : HistoryEditOperation
  deriving Repr, DecidableEq

/-- Session state: the connected store plus the in-memory pending edit
buffer (`self.__edits`, reset to `[]` on `__enter__`). -/
structure State where
  store : Store
  edits : List HistoryEdit
  deriving Repr, DecidableEq

/-- A session freshly opened on an empty store. -/
def State.fresh : State := ⟨Store.empty, []⟩

/-- Errors raised by the library (Python exceptions, by raise site). -/
inductive PrError where
  | invalidContext
  | unknownContext
  | unknownPackage (name : String)
  | validationFailed (diag : Option String)
  | listValidationFailed (diag : Option String)
  | removeMissing (name : String)
  | resolverFault (diag : String)
  deriving Repr, DecidableEq

/-- Result of a mutating call: either a value together with the state after
the call, or an error together with the state at the moment of the raise. -/
inductive MResult (α : Type) where
  | ok (st : State) (val : α)
  | err (st : State) (e : PrError)
  deriving Repr, DecidableEq

/-- Python truthiness of an optional integer: `None` and `0` are falsy. -/
def idTruthy (o : Option Nat) : Bool := o.getD 0 != 0

/-- Python truthiness of an optional string: `None` and `""` are falsy. -/
def strTruthy (o : Option String) : Bool := o.getD "" != ""

/-- Right-pads a context sequence with nulls to exactly 3 positions
(the padding part of `sanitize_context`). -/
def padCtx (cs : List (Option String)) : Ctx :=
  (cs.getD 0 none, cs.getD 1 none, cs.getD 2 none)

/-- Mirrors `ProductionResolverDatabase.sanitize_context`: more than three
levels raises `ValueError`, otherwise the sequence is right-padded. -/
def sanitize_context (cs : List (Option String)) : Except PrError Ctx :=
  if cs.length > 3 then .error .invalidContext else .ok (padCtx cs)

/-- Whether a context row matches a triple exactly: a null level matches
only a NULL column (this is the `IS NULL` / `= ?` split in
`get_context_row_id`). -/
def rowMatchesCtx (row : ContextRow) (c : Ctx) : Bool :=
  row.project == c.1 && row.category == c.2.1 && row.entity == c.2.2

/-- First matching `context_id` for a triple, in rowid order
(`next(iter(result), (None,))[0]` takes the first fetched row). -/
def ctxLookup (rows : List ContextRow) (c : Ctx) : Option Nat :=
  ((rows.filter (fun r => rowMatchesCtx r c)).head?).map (fun r => r.context_id)

/-- Mirrors `ProductionResolverDatabase.get_context_row_id`. -/
def get_context_row_id (s : Store) (cs : List (Option String)) :
    Except PrError (Option Nat) :=
  match sanitize_context cs with
  | .error e => .error e
  | .ok c => .ok (ctxLookup s.contexts c)

/-- Appends a context row with a fresh autoincremented id (the INSERT of
`insert_context`, after sanitizing). -/
def Store.insertCtx (s : Store) (c : Ctx) : Store × Nat :=
  ({ s with
      contexts := s.contexts ++ [⟨s.nextContextId, c.1, c.2.1, c.2.2⟩]
      nextContextId := s.nextContextId + 1 },
    s.nextContextId)

/-- Mirrors `ProductionResolverDatabase.insert_context`: an unconditional
INSERT returning the new row's id. -/
def insert_context (s : Store) (cs : List (Option String)) :
    Except PrError (Store × Nat) :=
  match sanitize_context cs with
  | .error e => .error e
  | .ok c => .ok (s.insertCtx c)

/-- The comma-joined truthy context components used for the history table
(`",".join([c for c in edit.context if c])`). -/
def contextJoin (cs : List (Option String)) : String :=
  String.intercalate "," ((cs.filterMap id).filter (fun x => x ≠ ""))

/-- Mirrors `ProductionResolverDatabase.save`: if `store_history`, one
history row per pending edit (user and timestamp resolved at flush time,
comment suffixed with its batch position), then the buffer is cleared
unconditionally.  The transaction commit is a no-op in this model. -/
def save (st : State) (user now : String) (store_history : Bool)
    (comment : String) : State :=
  let n := st.edits.length
  let newRows : List HistoryRow :=
    if store_history then
      ((List.range n).zip st.edits).map (fun p =>
        { user := user
          context := contextJoin p.2.context
          package_name := p.2.package_name
          step := p.2.step.getD ""
          software := p.2.software.getD ""
          operation := p.2.operation.value
          date := now
          comment := comment ++ s!"({p.1 + 1}/{n})" })
    else []
  { store := { st.store with history := st.store.history ++ newRows }
    edits := [] }

/-- Mirrors the Python method named initialize on the database class: the
`CREATE TABLE IF NOT EXISTS` statements are no-ops on the model (tables
always exist), then one all-null context row is inserted unconditionally
and `save()` runs.  (Renamed here because the Python name is a Lean
keyword.) -/
def initDb (st : State) (user now : String) : State :=
  let s := st.store
  let s1 : Store :=
    { s with
        contexts := s.contexts ++ [⟨s.nextContextId, none, none, none⟩]
        nextContextId := s.nextContextId + 1 }
  save { st with store := s1 } user now true ""

/-! The read path: `get_package_list` and its helpers. -/

/-- Deduplication keeping the first occurrence, with an accumulator of
already-seen elements (the behaviour of Python `dict.fromkeys`). -/
def dedupFirstAux {α : Type} [DecidableEq α] (seen : List α) :
    List α → List α
  | [] => []
  | x :: xs =>
    if x ∈ seen then dedupFirstAux seen xs
    else x :: dedupFirstAux (x :: seen) xs

/-- Mirrors `dict.fromkeys(...)`: deduplicate keeping the first occurrence
of each element. -/
def dedupFirst {α : Type} [DecidableEq α] (l : List α) : List α :=
  dedupFirstAux [] l

/-- The four ancestor triples queried by `get_package_list`, always in this
order: studio root, project, project/category, project/category/entity. -/
def chainTriples (c : Ctx) : List Ctx :=
  [(none, none, none), (c.1, none, none), (c.1, c.2.1, none),
    (c.1, c.2.1, c.2.2)]

/-- The `context_row_ids` list of `get_package_list` before filtering. -/
def chainIds (s : Store) (c : Ctx) : List (Option Nat) :=
  (chainTriples c).map (ctxLookup s.contexts)

/-- Mirrors `[value for value in context_row_ids if value]` followed by
`dict.fromkeys`: drop falsy ids, deduplicate keeping first-seen order. -/
def surviveIds (ids : List (Option Nat)) : List Nat :=
  dedupFirst ((ids.filter idTruthy).filterMap id)

/-- The `lookup_steps` dict of `get_package_list`, in insertion order.  A
pair `(fs, fw)` stands for the SQL filter `step <match fs> AND software
<match fw>` where `none` is `IS NULL` and `some v` is `= v`.  The source
tests the arguments with Python truthiness (`if step:`), so an empty
string behaves like an absent axis. -/
def axisGroups (step software : Option String) :
    List (Option String × Option String) :=
  [(none, none)]
    ++ (if strTruthy step then [(step, none)] else [])
    ++ (if strTruthy software then [(none, software)] else [])
    ++ (if strTruthy step && strTruthy software then [(step, software)]
        else [])

/-- One `SELECT name FROM package WHERE context_id = ? AND step ... AND
software ...` query, in rowid order. -/
def queryPackages (s : Store) (cid : Nat) (fs fw : Option String) :
    List String :=
  (s.packages.filter (fun p =>
      p.context_id == cid && p.step == fs && p.software == fw)).map
    (fun p => p.name)

/-- The `packages` list accumulated by the nested loops of
`get_package_list`, before validation and final deduplication. -/
def rawPackages (s : Store) (c : Ctx) (step software : Option String) :
    List String :=
  (surviveIds (chainIds s c)).flatMap (fun cid =>
    (axisGroups step software).flatMap (fun g => queryPackages s cid g.1 g.2))

/-! The validation gateway.  The external rez resolver is modelled as an
oracle: on a package list it either returns a solve status, or raises an
exception that is a `RezError`, or raises one that is not. -/

/-- Possible behaviours of the external rez resolver on one package list. -/
inductive ResolverOutcome where
  | ok (solved : Bool)
  | raiseRez (diag : String)
  | raiseOther (diag : String)
  deriving Repr, DecidableEq

/-- The external resolver capability. -/
abbrev Resolver := List String → ResolverOutcome

/-- Mirrors `ProductionResolverDatabase.validate_context`: the rez calls
run inside `try/except RezError`, so a `RezError` becomes `(False,
rez_error)` while any other exception propagates (modelled as `.error`). -/
def validate_context (r : Resolver) (pkgs : List String) :
    Except String (Bool × Option String) :=
  match r pkgs with
  | .ok solved => .ok (solved, none)
  | .raiseRez d => .ok (false, some d)
  | .raiseOther d => .error d

/-- Mirrors `ProductionResolverDatabase.get_package_list`.  Note the
validation runs on the raw (not yet deduplicated) package list, and the
returned tuple is the deduplicated one. -/
def get_package_list (r : Resolver) (s : Store) (cs : List (Option String))
    (step software : Option String) (validate : Bool) :
    Except PrError (List String) :=
  match sanitize_context cs with
  | .error e => .error e
  | .ok c =>
    let pkgs := rawPackages s c step software
    if validate then
      match validate_context r pkgs with
      | .error d => .error (.resolverFault d)
      | .ok (status, msg) =>
        if status then .ok (dedupFirst pkgs)
        else .error (.listValidationFailed msg)
    else .ok (dedupFirst pkgs)

/-! The mutating calls. -/

/-- Whether a package row matches the exact removal tuple: name equal,
context id equal, and the step / software columns equal to the requested
optional values (`step is not None` selects `= ?`, otherwise `IS NULL`;
either way this is equality of optionals). -/
def exactMatch (p : PackageRow) (cid : Nat) (name : String)
    (step software : Option String) : Bool :=
  p.name == name && p.context_id == cid && p.step == step
    && p.software == software

/-- Mirrors `ProductionResolverDatabase.add_package`.  With validation on,
the current list (unvalidated) plus the candidate is submitted to the
gateway and a rejection raises the gateway's diagnostic before anything is
touched.  Then the context id is resolved (created if falsy), the package
row inserted, and an INSTALL edit buffered; the returned value is
`cursor.lastrowid`, i.e. the new package row's rowid.  When the insert
branch runs, `sanitize_context` has already succeeded inside
`get_context_row_id` on the same argument, so `insert_context`'s
re-sanitization is the total `padCtx`. -/
def add_package (r : Resolver) (st : State) (cs : List (Option String))
    (package_name : String) (step software : Option String)
    (validate : Bool) : MResult Nat :=
  let gate : Except PrError Unit :=
    if validate then
      match get_package_list r st.store cs step software false with
      | .error e => .error e
      | .ok pkgs =>
        match validate_context r (pkgs ++ [package_name]) with
        | .error d => .error (.resolverFault d)
        | .ok (status, msg) =>
          if status then .ok () else .error (.validationFailed msg)
    else .ok ()
  match gate with
  | .error e => .err st e
  | .ok _ =>
    match get_context_row_id st.store cs with
    | .error e => .err st e
    | .ok cidOpt =>
      let res : Store × Nat :=
        if idTruthy cidOpt then (st.store, cidOpt.getD 0)
        else st.store.insertCtx (padCtx cs)
      let s1 := res.1
      let cid := res.2
      let row : PackageRow :=
        ⟨s1.nextRowId, cid, package_name, step, software⟩
      let s2 : Store :=
        { s1 with packages := s1.packages ++ [row]
                  nextRowId := s1.nextRowId + 1 }
      .ok { store := s2
            edits := st.edits ++
              [⟨cs, package_name, step, software, .INSTALL⟩] }
        row.rowid

/-- Mirrors `ProductionResolverDatabase.remove_package`: unknown context
and unknown exact tuple raise before anything is touched; with validation
on, the current list minus one occurrence of the name is validated
(`list.remove` raises if the name is absent from the list); finally the
row found by the SELECT is deleted by rowid and an UNINSTALL edit
buffered. -/
def remove_package (r : Resolver) (st : State) (cs : List (Option String))
    (package_name : String) (step software : Option String)
    (validate : Bool) : MResult Unit :=
  match get_context_row_id st.store cs with
  | .error e => .err st e
  | .ok cidOpt =>
    if !idTruthy cidOpt then .err st .unknownContext
    else
      let cid := cidOpt.getD 0
      let rowIdOpt : Option Nat :=
        ((st.store.packages.filter (fun p =>
            exactMatch p cid package_name step software)).head?).map
          (fun p => p.rowid)
      if !idTruthy rowIdOpt then .err st (.unknownPackage package_name)
      else
        let gate : Except PrError Unit :=
          if validate then
            match get_package_list r st.store cs step software false with
            | .error e => .error e
            | .ok pkgs =>
              if package_name ∈ pkgs then
                match validate_context r (pkgs.erase package_name) with
                | .error d => .error (.resolverFault d)
                | .ok (status, msg) =>
                  if status then .ok () else .error (.validationFailed msg)
              else .error (.removeMissing package_name)
          else .ok ()
        match gate with
        | .error e => .err st e
        | .ok _ =>
          let rid := rowIdOpt.getD 0
          let s2 : Store :=
            { st.store with
                packages := st.store.packages.filter
                  (fun p => p.rowid != rid) }
          .ok { store := s2
                edits := st.edits ++
                  [⟨cs, package_name, step, software, .UNINSTALL⟩] } ()

/-! The deployment manager (`deploy`).  The filesystem side is modelled as
an environment holding the production store content, the staging store
content, the set of files in the history directory (by content), and
whether the directory exists.  The configuration flag `keep_history` and
the session direction `load_production` are parameters, as is an oracle
`backup_ok` saying whether the history backup-copy primitive succeeds
(`sqlite3` raises `OperationalError` on failure, which propagates).  File
names (the `%y_%m_%d_%H_%M_%S_%f` timestamp) are not modelled; a history
file is represented by its content. -/

structure DeployEnv where
  production : Store
  staging : Store
  historyFiles : List Store
  historyDirExists : Bool
  deriving Repr, DecidableEq

inductive DeployError where
  | invalidDeployDirection
  | backupFault
  deriving Repr, DecidableEq

/-- Mirrors `ProductionResolverDatabase.deploy` for a session whose own
connection holds the staging content when `load_production` is false. -/
def deploy (load_production keep_history backup_ok : Bool)
    (env : DeployEnv) : Option DeployError × DeployEnv :=
  if load_production then (some .invalidDeployDirection, env)
  else
    let env1 :=
      if keep_history then { env with historyDirExists := true } else env
    if keep_history && !backup_ok then (some .backupFault, env1)
    else
      let env2 :=
        if keep_history then
          { env1 with historyFiles := env1.historyFiles ++ [env1.production] }
        else env1
      (none, { env2 with production := env2.staging })

/-! Sequences of mutating calls, used by the buffer-accounting and
round-trip claims. -/

/-- The arguments of one `add_package` / `remove_package` call. -/
structure PkgCall where
  cs : List (Option String)
  name : String
  step : Option String
  software : Option String
  validate : Bool
  deriving Repr, DecidableEq

/-- One mutating call. -/
inductive MutCall where
  | add (c : PkgCall)
  | remove (c : PkgCall)
  deriving Repr, DecidableEq

/-- The pending-buffer record a successful call appends. -/
def MutCall.toEdit : MutCall → HistoryEdit
  | .add c => ⟨c.cs, c.name, c.step, c.software, .INSTALL⟩
  | .remove c => ⟨c.cs, c.name, c.step, c.software, .UNINSTALL⟩

/-- Runs a sequence of mutating calls, stopping at the first raise. -/
def runCalls (r : Resolver) (st : State) : List MutCall → MResult Unit
  | [] => .ok st ()
  | .add c :: rest =>
    match add_package r st c.cs c.name c.step c.software c.validate with
    | .err s e => .err s e
    | .ok s _ => runCalls r s rest
  | .remove c :: rest =>
    match remove_package r st c.cs c.name c.step c.software c.validate with
    | .err s e => .err s e
    | .ok s _ => runCalls r s rest

/-- A list of pure additions. -/
def addCalls (cs : List PkgCall) : List MutCall := cs.map .add

/-- A list of pure removals. -/
def removeCalls (cs : List PkgCall) : List MutCall := cs.map .remove

/-! Claims C2 and C3: the deployment manager. -/

/-- C3: for every session opened in production mode, `deploy()` always
fails with the invalid-deploy-direction error (the `RuntimeError` raised
on `self.__load_production`) and performs no I/O: the filesystem
environment is returned untouched, whatever the retention flag or the
behaviour of the backup primitive. -/
theorem C3_deploy_production_fails (keep_history backup_ok : Bool)
    (env : DeployEnv) :
    deploy true keep_history backup_ok env =
      (some .invalidDeployDirection, env) := rfl

/-- C2: with history retention enabled, a staging-session `deploy()` first
appends exactly one new history-directory file whose content is the
pre-promotion production store, and then overwrites the production store
with the staging store; if the backup step fails, the production store is
not overwritten and no history file is recorded; with retention disabled,
no history file is created but the production store is still overwritten
by the staging store. -/
theorem C2_deploy_backup_ordering (backup_ok : Bool) (env : DeployEnv) :
    (deploy false true true env =
      (none, { env with historyDirExists := true
                        historyFiles := env.historyFiles ++ [env.production]
                        production := env.staging }))
    ∧ (deploy false true false env =
        (some .backupFault, { env with historyDirExists := true }))
    ∧ (deploy false false backup_ok env =
        (none, { env with production := env.staging })) :=
  ⟨rfl, rfl, rfl⟩

/-! Claim C8: the validation gateway and exceptions. -/

/-- A resolver whose failure is not a `RezError` (for instance a
`TypeError` thrown inside rez). -/
def nonRezResolver : Resolver := fun _ => .raiseOther "TypeError: boom"

/-- A resolver that always fails with a `RezError`. -/
def rezFailResolver : Resolver := fun _ => .raiseRez "failed: pkgZ"

/-- C8 counterexample: an exception that is not a `RezError` raised by the
external resolver propagates out of `validate_context` instead of being
returned as `(false, diagnostic)` — the `try` block only catches
`RezError`. -/
theorem C8_cex_non_rez_propagates :
    validate_context nonRezResolver ["pkgA"] = .error "TypeError: boom" :=
  rfl

/-- C8 (amended): `validate_context` never lets a `RezError` raised by the
external resolver propagate — it is caught and returned as `(false,
diagnostic)` — and a normal resolver result is returned as `(status,
none)`; exceptions that are not `RezError`s are not caught. -/
theorem C8_validate_context_catches_rez (r : Resolver)
    (pkgs : List String) :
    (∀ d, r pkgs = .raiseRez d →
      validate_context r pkgs = .ok (false, some d))
    ∧ (∀ b, r pkgs = .ok b → validate_context r pkgs = .ok (b, none)) := by
  constructor
  · intro d h
    simp [validate_context, h]
  · intro b h
    simp [validate_context, h]

/-- C8 witness: the amended theorem applied to a concrete `RezError`-raising
resolver. -/
theorem C8_validate_context_catches_rez_witness :
    validate_context rezFailResolver ["pkgZ"] =
      .ok (false, some "failed: pkgZ") :=
  (C8_validate_context_catches_rez rezFailResolver ["pkgZ"]).1
    "failed: pkgZ" rfl

/-! Claim C7: pending edit buffer accounting. -/

/-- A successful `add_package` appends exactly one INSTALL record to the
pending buffer. -/
theorem add_package_ok_edits {r : Resolver} {st : State}
    {cs : List (Option String)} {pn : String} {step sw : Option String}
    {v : Bool} {s' : State} {val : Nat}
    (h : add_package r st cs pn step sw v = .ok s' val) :
    s'.edits = st.edits ++ [⟨cs, pn, step, sw, .INSTALL⟩] := by
  simp only [add_package] at h
  split at h
  · simp at h
  · split at h
    · simp at h
    · injection h with h1 h2
      subst h1
      rfl

/-- A successful `remove_package` appends exactly one UNINSTALL record to
the pending buffer. -/
theorem remove_package_ok_edits {r : Resolver} {st : State}
    {cs : List (Option String)} {pn : String} {step sw : Option String}
    {v : Bool} {s' : State} {val : Unit}
    (h : remove_package r st cs pn step sw v = .ok s' val) :
    s'.edits = st.edits ++ [⟨cs, pn, step, sw, .UNINSTALL⟩] := by
  simp only [remove_package] at h
  split at h
  · simp at h
  · split at h
    · simp at h
    · split at h
      · simp at h
      · split at h
        · simp at h
        · injection h with h1 h2
          subst h1
          rfl

/-- A run of mutating calls that completes appends exactly its own records,
in call order. -/
theorem runCalls_edits (r : Resolver) :
    ∀ (calls : List MutCall) (st s' : State),
      runCalls r st calls = .ok s' () →
      s'.edits = st.edits ++ calls.map MutCall.toEdit := by
  intro calls
  induction calls with
  | nil =>
    intro st s' h
    simp only [runCalls] at h
    injection h with h1 h2
    subst h1
    simp
  | cons c rest ih =>
    intro st s' h
    cases c with
    | add pc =>
      simp only [runCalls] at h
      split at h
      · simp at h
      · rename_i s1 v1 heq
        have h1 := add_package_ok_edits heq
        have h2 := ih s1 s' h
        rw [h2, h1]
        simp [MutCall.toEdit]
    | remove pc =>
      simp only [runCalls] at h
      split at h
      · simp at h
      · rename_i s1 v1 heq
        have h1 := remove_package_ok_edits heq
        have h2 := ih s1 s' h
        rw [h2, h1]
        simp [MutCall.toEdit]

/-- C7: within a session (pending buffer initially empty), after N
completed `add_package` / `remove_package` calls with no intervening save,
the pending edit buffer holds exactly the N corresponding records in call
order; and after every `save()` the buffer is empty regardless of whether
`store_history` was set. -/
theorem C7_edit_buffer_accounting :
    (∀ (r : Resolver) (calls : List MutCall) (st s' : State),
        st.edits = [] → runCalls r st calls = .ok s' () →
        s'.edits = calls.map MutCall.toEdit
          ∧ s'.edits.length = calls.length)
    ∧ (∀ (st : State) (user now : String) (sh : Bool) (comment : String),
        (save st user now sh comment).edits = []) := by
  constructor
  · intro r calls st s' h0 h
    have := runCalls_edits r calls st s' h
    rw [h0] at this
    simp at this
    exact ⟨this, by rw [this]; simp⟩
  · intro st user now sh comment
    rfl

/-- A resolver that always solves. -/
def okResolver : Resolver := fun _ => .ok true

/-- An initialized fresh staging session: one all-null context row, no
packages, empty pending buffer. -/
def demoStart : State := initDb State.fresh "user" "now"

/-- Two mutating calls: add a package at studio scope, then remove it. -/
def demoCallsC7 : List MutCall :=
  [.add ⟨[], "pkgA", none, none, false⟩,
    .remove ⟨[], "pkgA", none, none, false⟩]

/-- The session state after running `demoCallsC7` from `demoStart`. -/
def demoEndC7 : State :=
  ⟨⟨[⟨1, none, none, none⟩], [], [], 2, 2⟩,
    [⟨[], "pkgA", none, none, .INSTALL⟩,
      ⟨[], "pkgA", none, none, .UNINSTALL⟩]⟩

/-- C7 witness: the buffer-accounting theorem applied to a concrete
two-call session. -/
theorem C7_edit_buffer_accounting_witness :
    demoEndC7.edits = demoCallsC7.map MutCall.toEdit
      ∧ demoEndC7.edits.length = demoCallsC7.length :=
  C7_edit_buffer_accounting.1 okResolver demoCallsC7 demoStart demoEndC7
    rfl (by decide)

/-! Claim C4: rejected additions mutate nothing. -/

/-- C4: when validation is requested and the validation gateway rejects
the candidate set (the current unvalidated list plus the new name,
yielding status false with some diagnostic), `add_package` raises that
diagnostic and the session state at the raise is exactly the entry state:
no context row inserted, no package row inserted, no pending-buffer
append. -/
theorem C4_add_package_rejected_no_mutation (r : Resolver) (st : State)
    (cs : List (Option String)) (pn : String) (step sw : Option String)
    (pkgs : List String) (d : Option String)
    (hlist : get_package_list r st.store cs step sw false = .ok pkgs)
    (hrej : validate_context r (pkgs ++ [pn]) = .ok (false, d)) :
    add_package r st cs pn step sw true = .err st (.validationFailed d) := by
  simp [add_package, hlist, hrej]

/-- C4 witness: a rejecting resolver against the freshly initialized
store. -/
theorem C4_add_package_rejected_no_mutation_witness :
    add_package rezFailResolver demoStart [] "pkgX" none none true =
      .err demoStart (.validationFailed (some "failed: pkgZ")) :=
  C4_add_package_rejected_no_mutation rezFailResolver demoStart []
    "pkgX" none none [] (some "failed: pkgZ") rfl rfl

/-! Claim C5: removal failure modes and exact-match semantics. -/

/-- The head of a list is a member. -/
theorem head?_some_mem {α : Type} {l : List α} {a : α}
    (h : l.head? = some a) : a ∈ l := by
  cases l with
  | nil => simp at h
  | cons x xs =>
    simp at h
    subst h
    exact List.mem_cons_self x xs

/-- A store whose only package row carries a non-null step (the spec's
"in particular" scenario). -/
def stepStore : Store :=
  ⟨[⟨1, none, none, none⟩], [⟨1, 1, "pkgB", some "stepA", none⟩], [], 2, 2⟩

/-- C5: `remove_package` fails with the unknown-context error when no
context row matches the sanitized triple (and, the state being returned
unchanged, never creates a context); fails with the unknown-package error
when no row matches the exact `(context_id, name, step, software)` tuple —
an absent step or software matching only a NULL column — again deleting
nothing; and on success only rows matching that exact tuple can
disappear; in particular removing `(studio, "pkgB")` with no step leaves a
same-named row with a non-null step untouched. -/
theorem C5_remove_package_exactness :
    (∀ (r : Resolver) (st : State) (cs : List (Option String))
        (pn : String) (step sw : Option String) (v : Bool) (c : Ctx),
      sanitize_context cs = .ok c →
      ctxLookup st.store.contexts c = none →
      remove_package r st cs pn step sw v = .err st .unknownContext)
    ∧ (∀ (r : Resolver) (st : State) (cs : List (Option String))
        (pn : String) (step sw : Option String) (v : Bool) (c : Ctx)
        (cid : Nat),
      sanitize_context cs = .ok c →
      ctxLookup st.store.contexts c = some cid → cid ≠ 0 →
      (∀ p ∈ st.store.packages, exactMatch p cid pn step sw = false) →
      remove_package r st cs pn step sw v = .err st (.unknownPackage pn))
    ∧ (∀ (r : Resolver) (st : State) (cs : List (Option String))
        (pn : String) (step sw : Option String) (v : Bool) (c : Ctx)
        (cid : Nat) (s' : State),
      sanitize_context cs = .ok c →
      ctxLookup st.store.contexts c = some cid →
      (st.store.packages.map (fun p => p.rowid)).Nodup →
      remove_package r st cs pn step sw v = .ok s' () →
      ∀ p ∈ st.store.packages, exactMatch p cid pn step sw = false →
        p ∈ s'.store.packages)
    ∧ (remove_package okResolver ⟨stepStore, []⟩ [] "pkgB" none none
        false = .err ⟨stepStore, []⟩ (.unknownPackage "pkgB")) := by
  refine ⟨?_, ?_, ?_, by decide⟩
  · intro r st cs pn step sw v c hs hn
    simp [remove_package, get_context_row_id, hs, hn, idTruthy]
  · intro r st cs pn step sw v c cid hs hcid hne hall
    have hfil : st.store.packages.filter
        (fun p => exactMatch p cid pn step sw) = [] :=
      List.filter_eq_nil_iff.mpr (by
        intro p hp
        simp [hall p hp])
    simp [remove_package, get_context_row_id, hs, hcid, idTruthy, hne,
      hfil]
  · intro r st cs pn step sw v c cid s' hs hcid hnd hok p hp hpm
    simp only [remove_package, get_context_row_id, hs, hcid,
      Option.getD_some] at hok
    split at hok
    · simp at hok
    · split at hok
      · simp at hok
      · rename_i hro
        split at hok
        · simp at hok
        · injection hok with h1 h2
          subst h1
          cases hq : (st.store.packages.filter
              (fun p => exactMatch p cid pn step sw)).head? with
          | none =>
            rw [hq] at hro
            simp [idTruthy] at hro
          | some q =>
            rw [hq] at hro
            have hqf := List.mem_filter.mp (head?_some_mem hq)
            refine List.mem_filter.mpr ⟨hp, ?_⟩
            have hinj := List.inj_on_of_nodup_map hnd hp hqf.1
            have hpq : p ≠ q := by
              intro h
              rw [h, hqf.2] at hpm
              exact absurd hpm (by simp)
            have hrid : p.rowid ≠ q.rowid := fun h => hpq (hinj h)
            simpa using hrid


/-- C5 witness: the unknown-context and unknown-package conjuncts applied
to concrete stores. -/
theorem C5_remove_package_exactness_witness :
    (remove_package okResolver ⟨Store.empty, []⟩ [some "nope"] "pkgQ"
        none none false = .err ⟨Store.empty, []⟩ .unknownContext)
    ∧ (remove_package okResolver ⟨stepStore, []⟩ [] "pkgB" none none
        true = .err ⟨stepStore, []⟩ (.unknownPackage "pkgB")) :=
  ⟨C5_remove_package_exactness.1 okResolver ⟨Store.empty, []⟩
      [some "nope"] "pkgQ" none none false (some "nope", none, none)
      rfl rfl,
    C5_remove_package_exactness.2.1 okResolver ⟨stepStore, []⟩ []
      "pkgB" none none true (none, none, none) 1 rfl rfl (by decide)
      (by decide)⟩

/-! Claim C10: duplicate rows and single-row deletion. -/

/-- Number of package rows matching the exact removal tuple. -/
def countExact (s : Store) (cid : Nat) (pn : String)
    (step sw : Option String) : Nat :=
  (s.packages.filter (fun p => exactMatch p cid pn step sw)).length

/-- C10: `add_package` performs no existing-row check — whenever the
context id resolves it unconditionally appends a row with the requested
tuple, so the store may hold several rows equal on the full tuple; and on
any store with nodup positive rowids holding at least one row with the
exact tuple, `remove_package` (validation disabled) succeeds, the number
of rows with that tuple drops by exactly one, and all rows not matching
the tuple are preserved. -/
theorem C10_duplicates_and_single_delete :
    (∀ (r : Resolver) (st : State) (cs : List (Option String))
        (pn : String) (step sw : Option String) (c : Ctx) (cid : Nat),
      sanitize_context cs = .ok c →
      ctxLookup st.store.contexts c = some cid → cid ≠ 0 →
      add_package r st cs pn step sw false =
        .ok ⟨{ st.store with
                packages := st.store.packages ++
                  [⟨st.store.nextRowId, cid, pn, step, sw⟩]
                nextRowId := st.store.nextRowId + 1 },
              st.edits ++ [⟨cs, pn, step, sw, .INSTALL⟩]⟩
          st.store.nextRowId)
    ∧ (∀ (r : Resolver) (st : State) (cs : List (Option String))
        (pn : String) (step sw : Option String) (c : Ctx) (cid : Nat),
      sanitize_context cs = .ok c →
      ctxLookup st.store.contexts c = some cid → cid ≠ 0 →
      (st.store.packages.map (fun p => p.rowid)).Nodup →
      (∀ p ∈ st.store.packages, p.rowid ≠ 0) →
      1 ≤ countExact st.store cid pn step sw →
      ∃ s', remove_package r st cs pn step sw false = .ok s' ()
        ∧ countExact s'.store cid pn step sw =
            countExact st.store cid pn step sw - 1
        ∧ s'.store.packages.filter
              (fun p => !exactMatch p cid pn step sw) =
            st.store.packages.filter
              (fun p => !exactMatch p cid pn step sw)) := by
  constructor
  · intro r st cs pn step sw c cid hs hcid hne
    simp [add_package, get_context_row_id, hs, hcid, idTruthy, hne]
  · intro r st cs pn step sw c cid hs hcid hne hnd hpos hcount
    cases hfl : st.store.packages.filter
        (fun p => exactMatch p cid pn step sw) with
    | nil =>
      rw [countExact, hfl] at hcount
      simp at hcount
    | cons q t =>
      have hq : (st.store.packages.filter
          (fun p => exactMatch p cid pn step sw)).head? = some q := by
        rw [hfl]
        rfl
      have hqmem : q ∈ st.store.packages.filter
          (fun p => exactMatch p cid pn step sw) := by
        rw [hfl]
        exact List.mem_cons_self q t
      have hqpkg := (List.mem_filter.mp hqmem).1
      have hqex := (List.mem_filter.mp hqmem).2
      have hq0 : q.rowid ≠ 0 := hpos q hqpkg
      have hndfl : ((st.store.packages.filter
          (fun p => exactMatch p cid pn step sw)).map
            (fun p => p.rowid)).Nodup :=
        hnd.sublist ((List.filter_sublist _).map _)
      rw [hfl, List.map_cons] at hndfl
      have htq : ∀ p ∈ t, p.rowid ≠ q.rowid := by
        intro p hpt h
        exact (List.nodup_cons.mp hndfl).1
          (h ▸ List.mem_map_of_mem _ hpt)
      refine ⟨⟨{ st.store with
            packages := st.store.packages.filter
              (fun p => p.rowid != q.rowid) },
          st.edits ++ [⟨cs, pn, step, sw, .UNINSTALL⟩]⟩, ?_, ?_, ?_⟩
      · simp [remove_package, get_context_row_id, hs, hcid, idTruthy,
          hne, hq, hq0]
      · show ((st.store.packages.filter (fun p => p.rowid != q.rowid)).filter
            (fun p => exactMatch p cid pn step sw)).length = _
        rw [List.filter_filter]
        have hcomm : st.store.packages.filter
              (fun a => exactMatch a cid pn step sw && (a.rowid != q.rowid)) =
            (st.store.packages.filter
              (fun p => exactMatch p cid pn step sw)).filter
                (fun p => p.rowid != q.rowid) := by
          rw [List.filter_filter]
          apply List.filter_congr
          intro a _
          exact Bool.and_comm _ _
        rw [hcomm, hfl]
        rw [List.filter_cons_of_neg (by simp)]
        rw [List.filter_eq_self.mpr (by
          intro p hpt
          simpa using htq p hpt)]
        rw [countExact, hfl]
        simp
      · show (st.store.packages.filter (fun p => p.rowid != q.rowid)).filter
            (fun p => !exactMatch p cid pn step sw) = _
        rw [List.filter_filter]
        have hcomm : st.store.packages.filter
              (fun a => !exactMatch a cid pn step sw && (a.rowid != q.rowid)) =
            (st.store.packages.filter
              (fun p => !exactMatch p cid pn step sw)).filter
                (fun p => p.rowid != q.rowid) := by
          rw [List.filter_filter]
          apply List.filter_congr
          intro a _
          exact Bool.and_comm _ _
        rw [hcomm]
        apply List.filter_eq_self.mpr
        intro p hpf
        have hppkg := (List.mem_filter.mp hpf).1
        have hpne := (List.mem_filter.mp hpf).2
        have hpq : p ≠ q := by
          intro h
          rw [h, hqex] at hpne
          simp at hpne
        have := List.inj_on_of_nodup_map hnd hppkg hqpkg
        simpa using fun h => hpq (this h)

/-- A store holding two package rows equal on the full
`(context_id, name, step, software)` tuple. -/
def dupStore : Store :=
  ⟨[⟨1, none, none, none⟩],
    [⟨1, 1, "pkgA", none, none⟩, ⟨2, 1, "pkgA", none, none⟩], [], 2, 3⟩

/-- The duplicate store wrapped in a session. -/
def dupState : State := ⟨dupStore, []⟩

/-- C10 witness: removing the duplicated tuple from the concrete
two-duplicate store deletes exactly one of the two rows. -/
theorem C10_duplicates_and_single_delete_witness :
    ∃ s', remove_package okResolver dupState [] "pkgA" none none false =
        .ok s' ()
      ∧ countExact s'.store 1 "pkgA" none none =
          countExact dupState.store 1 "pkgA" none none - 1
      ∧ s'.store.packages.filter (fun p => !exactMatch p 1 "pkgA" none none) =
          dupState.store.packages.filter
            (fun p => !exactMatch p 1 "pkgA" none none) :=
  C10_duplicates_and_single_delete.2 okResolver dupState [] "pkgA"
    none none (none, none, none) 1 rfl rfl (by decide) (by decide)
    (by decide) (by decide)

/-! Claim C9: context-triple uniqueness. -/

/-- The triple stored in a context row. -/
def ctxTriple (row : ContextRow) : Ctx :=
  (row.project, row.category, row.entity)

/-- Matching a triple is equality of the stored triple. -/
theorem rowMatchesCtx_iff (row : ContextRow) (c : Ctx) :
    rowMatchesCtx row c = true ↔ ctxTriple row = c := by
  simp [rowMatchesCtx, ctxTriple, Prod.ext_iff, and_assoc]

/-- Lookup misses exactly when no row matches. -/
theorem ctxLookup_none_iff (rows : List ContextRow) (c : Ctx) :
    ctxLookup rows c = none ↔ ∀ r ∈ rows, rowMatchesCtx r c = false := by
  constructor
  · intro h r hr
    by_contra hm
    rw [Bool.not_eq_false] at hm
    have hrf : r ∈ rows.filter (fun r => rowMatchesCtx r c) :=
      List.mem_filter.mpr ⟨hr, hm⟩
    rcases hh : (rows.filter (fun r => rowMatchesCtx r c)) with _ | ⟨q, t⟩
    · rw [hh] at hrf
      simp at hrf
    · rw [ctxLookup, hh] at h
      simp at h
  · intro h
    rw [ctxLookup, List.filter_eq_nil_iff.mpr (by
      intro r hr
      simp [h r hr])]
    rfl

/-- A successful lookup returns the id of some matching row. -/
theorem ctxLookup_some_mem {rows : List ContextRow} {c : Ctx} {k : Nat}
    (h : ctxLookup rows c = some k) :
    ∃ row ∈ rows, rowMatchesCtx row c = true ∧ row.context_id = k := by
  unfold ctxLookup at h
  cases hh : (rows.filter (fun r => rowMatchesCtx r c)).head? with
  | none =>
    rw [hh] at h
    simp at h
  | some row =>
    rw [hh] at h
    simp at h
    have hm := List.mem_filter.mp (head?_some_mem hh)
    exact ⟨row, hm.1, hm.2, h⟩

/-- The state after initializing the same fresh store twice. -/
def twiceInit : State :=
  initDb (initDb State.fresh "user" "now") "user" "now"

/-- C9 counterexample: calling the initialization twice inserts a second
all-null studio-root row — the unconditional INSERT has no uniqueness
guard, so repeated initialization does not preserve triple uniqueness. -/
theorem C9_cex_repeated_init_duplicates :
    (twiceInit.store.contexts.filter
        (fun c => rowMatchesCtx c (none, none, none))).length = 2 := by
  decide

/-- C9 (amended): initializing a fresh store creates exactly one all-null
studio-root row and leaves the triples pairwise distinct; `add_package`
preserves triple uniqueness (it inserts a context row only after the
lookup missed), and `remove_package` never touches the context table;
however `insert_context` (and hence a repeated initialization) inserts
unconditionally and can create duplicate triples, so not every operation
preserves uniqueness. -/
theorem C9_context_triple_uniqueness :
    (∀ (user now : String),
      ((initDb State.fresh user now).store.contexts.filter
        (fun c => rowMatchesCtx c (none, none, none))).length = 1
      ∧ ((initDb State.fresh user now).store.contexts.map ctxTriple).Nodup)
    ∧ (∀ (r : Resolver) (st : State) (cs : List (Option String))
        (pn : String) (step sw : Option String) (v : Bool) (s' : State)
        (val : Nat),
        (∀ cr ∈ st.store.contexts, cr.context_id ≠ 0) →
        (st.store.contexts.map ctxTriple).Nodup →
        add_package r st cs pn step sw v = .ok s' val →
        (s'.store.contexts.map ctxTriple).Nodup)
    ∧ (∀ (r : Resolver) (st : State) (cs : List (Option String))
        (pn : String) (step sw : Option String) (v : Bool) (s' : State)
        (val : Unit),
        remove_package r st cs pn step sw v = .ok s' val →
        s'.store.contexts = st.store.contexts) := by
  refine ⟨?_, ?_, ?_⟩
  · intro user now
    constructor
    · rfl
    · have hc : (initDb State.fresh user now).store.contexts =
          [⟨1, none, none, none⟩] := rfl
      rw [hc]
      decide
  · intro r st cs pn step sw v s' val hid hnd h
    simp only [add_package] at h
    split at h
    · simp at h
    · split at h
      · simp at h
      · rename_i cidOpt heq
        -- extract the sanitized triple from get_context_row_id
        rw [get_context_row_id] at heq
        split at heq
        · simp at heq
        · rename_i c' hsan
          injection heq with heq1
          split at h
          · -- context found: context table unchanged
            injection h with h1 h2
            subst h1
            exact hnd
          · -- context inserted: the lookup missed, triple is new
            rename_i hfalsy
            injection h with h1 h2
            subst h1
            have hlook : ctxLookup st.store.contexts c' = none := by
              cases hcl : ctxLookup st.store.contexts c' with
              | none => rfl
              | some k =>
                exfalso
                obtain ⟨row, hrow, _, hkid⟩ := ctxLookup_some_mem hcl
                rw [← heq1, hcl] at hfalsy
                simp [idTruthy] at hfalsy
                exact hid row hrow (hkid.trans hfalsy)
            have hcpad : c' = padCtx cs := by
              rw [sanitize_context] at hsan
              split at hsan
              · simp at hsan
              · injection hsan with hh
                exact hh.symm
            show ((st.store.contexts ++
              [(⟨st.store.nextContextId, (padCtx cs).1, (padCtx cs).2.1,
                (padCtx cs).2.2⟩ : ContextRow)]).map ctxTriple).Nodup
            rw [List.map_append]
            rw [List.nodup_append]
            refine ⟨hnd, by simp, ?_⟩
            intro x hx hx2
            simp only [List.map_cons, List.map_nil, List.mem_singleton]
              at hx2
            have hxr := List.mem_map.mp hx
            obtain ⟨row, hrow, hrowx⟩ := hxr
            rw [hcpad] at hlook
            have hnomatch :=
              (ctxLookup_none_iff st.store.contexts (padCtx cs)).mp
                hlook row hrow
            rw [← hrowx] at hx2
            have : ctxTriple row = padCtx cs := by
              rw [hx2]
              rfl
            rw [← rowMatchesCtx_iff] at this
            rw [this] at hnomatch
            exact absurd hnomatch (by simp)
  · intro r st cs pn step sw v s' val h
    simp only [remove_package] at h
    split at h
    · simp at h
    · split at h
      · simp at h
      · split at h
        · simp at h
        · split at h
          · simp at h
          · injection h with h1 h2
            subst h1
            rfl

/-- The session after adding `pkgA` under a fresh project context. -/
def addedProjState : State :=
  ⟨⟨[⟨1, none, none, none⟩, ⟨2, some "proj", none, none⟩],
      [⟨1, 2, "pkgA", none, none⟩], [], 3, 2⟩,
    [⟨[some "proj"], "pkgA", none, none, .INSTALL⟩]⟩

/-- The session after removing that package again. -/
def remProjState : State :=
  ⟨⟨[⟨1, none, none, none⟩, ⟨2, some "proj", none, none⟩], [], [], 3, 2⟩,
    [⟨[some "proj"], "pkgA", none, none, .INSTALL⟩,
      ⟨[some "proj"], "pkgA", none, none, .UNINSTALL⟩]⟩

/-- C9 witness: the uniqueness-preservation conjuncts applied to a
concrete add (which lazily creates the project context) and a concrete
removal. -/
theorem C9_context_triple_uniqueness_witness :
    ((addedProjState.store.contexts.map ctxTriple).Nodup)
    ∧ remProjState.store.contexts = addedProjState.store.contexts :=
  ⟨C9_context_triple_uniqueness.2.1 okResolver demoStart [some "proj"]
      "pkgA" none none false addedProjState 1 (by decide) (by decide)
      (by decide),
    C9_context_triple_uniqueness.2.2 okResolver addedProjState
      [some "proj"] "pkgA" none none false remProjState () (by decide)⟩

/-! Claim C1: the package-list merge algorithm. -/

/-- The package-list computation as the specification claim words it:
build the ancestor chain `(null,null,null), (p,null,null), (p,c,null),
(p,c,e)`, look up each ancestor's context id, drop absent ids and
deduplicate them preserving first-seen order; query, for each surviving
context id in that order, the axis groups (no step, no software) always,
(step only) if a step was requested, (software only) if software was
requested, (step and software) if both; concatenate in that fixed order
and deduplicate the result by name preserving the first occurrence.
This is the spec-side definition, to be compared with
`get_package_list`. -/
def listPackagesSpec (s : Store) (c : Ctx) (step software : Option String) :
    List String :=
  let chain : List Ctx :=
    [(none, none, none), (c.1, none, none), (c.1, c.2.1, none),
      (c.1, c.2.1, c.2.2)]
  let cids : List Nat :=
    dedupFirst ((chain.map (ctxLookup s.contexts)).filterMap id)
  let groups : List (Option String × Option String) :=
    [(none, none)]
      ++ (if step.isSome then [(step, none)] else [])
      ++ (if software.isSome then [(none, software)] else [])
      ++ (if step.isSome && software.isSome then [(step, software)]
          else [])
  dedupFirst (cids.flatMap (fun cid => groups.flatMap (fun g =>
    (s.packages.filter (fun p =>
        p.context_id == cid && p.step == g.1 && p.software == g.2)).map
      (fun p => p.name))))

/-- Dropping falsy ids is dropping the absent ones when every present id
is nonzero. -/
theorem filter_truthy_of_nonzero :
    ∀ (ids : List (Option Nat)), (∀ n, some n ∈ ids → n ≠ 0) →
      (ids.filter idTruthy).filterMap id = ids.filterMap id := by
  intro ids
  induction ids with
  | nil => intro _; rfl
  | cons o rest ih =>
    intro h
    cases o with
    | none =>
      have hrest := ih (fun n hn => h n (List.mem_cons_of_mem _ hn))
      simp only [List.filter_cons, List.filterMap_cons]
      simpa [idTruthy] using hrest
    | some n =>
      have hn : n ≠ 0 := h n (List.mem_cons_self _ _)
      have hrest := ih (fun m hm => h m (List.mem_cons_of_mem _ hm))
      simp only [List.filter_cons, List.filterMap_cons]
      simpa [idTruthy, hn] using hrest

/-- Python truthiness of a requested axis agrees with presence when the
axis value is not the empty string. -/
theorem strTruthy_eq_isSome {o : Option String} (h : o ≠ some "") :
    strTruthy o = o.isSome := by
  cases o with
  | none => rfl
  | some s =>
    have hs : s ≠ "" := fun hh => h (by rw [hh])
    simp [strTruthy, hs]

/-- The demo store of the specification's scenarios: `pkgA` at studio
scope, `pkgB` at project, `pkgC` at category, `pkgD` at entity, and
`pkgE` at studio scope under step `stepA`. -/
def demoStore : Store :=
  ⟨[⟨1, none, none, none⟩,
      ⟨2, some "project", none, none⟩,
      ⟨3, some "project", some "category", none⟩,
      ⟨4, some "project", some "category", some "entity"⟩],
    [⟨1, 1, "pkgA", none, none⟩,
      ⟨2, 2, "pkgB", none, none⟩,
      ⟨3, 3, "pkgC", none, none⟩,
      ⟨4, 4, "pkgD", none, none⟩,
      ⟨5, 1, "pkgE", some "stepA", none⟩], [], 5, 6⟩

/-- C1: on every store with nonzero context ids, a context of at most 3
levels and step/software requests that are not empty strings,
`get_package_list` (validation disabled) returns exactly the sequence the
specification describes (`listPackagesSpec`); on the spec's concrete
scenario store, packages inserted at studio, project, category and entity
scope come back in that order, a package inserted under a step is
returned only when that step is requested, and is excluded when it is
not. -/
theorem C1_get_package_list_follows_spec :
    (∀ (r : Resolver) (s : Store) (cs : List (Option String))
        (step software : Option String),
      (∀ cr ∈ s.contexts, cr.context_id ≠ 0) →
      cs.length ≤ 3 →
      step ≠ some "" → software ≠ some "" →
      get_package_list r s cs step software false =
        .ok (listPackagesSpec s (padCtx cs) step software))
    ∧ (get_package_list okResolver demoStore
        [some "project", some "category", some "entity"] none none false =
        .ok ["pkgA", "pkgB", "pkgC", "pkgD"])
    ∧ (get_package_list okResolver demoStore [] (some "stepA") none false =
        .ok ["pkgA", "pkgE"])
    ∧ (get_package_list okResolver demoStore [] none none false =
        .ok ["pkgA"]) := by
  refine ⟨?_, rfl, rfl, rfl⟩
  intro r s cs step software hid h3 hst hsw
  have hnot : ¬ cs.length > 3 := by omega
  have hg : axisGroups step software =
      [(none, none)]
        ++ (if step.isSome then [(step, none)] else [])
        ++ (if software.isSome then [(none, software)] else [])
        ++ (if step.isSome && software.isSome then [(step, software)]
            else []) := by
    rw [axisGroups, strTruthy_eq_isSome hst, strTruthy_eq_isSome hsw]
  have hnz : ∀ n, some n ∈ (([(none, none, none),
      ((padCtx cs).1, none, none),
      ((padCtx cs).1, (padCtx cs).2.1, none),
      ((padCtx cs).1, (padCtx cs).2.1, (padCtx cs).2.2)] : List Ctx).map
        (ctxLookup s.contexts)) → n ≠ 0 := by
    intro n hn
    rw [List.mem_map] at hn
    obtain ⟨τ, _, hτ⟩ := hn
    obtain ⟨row, hrow, _, hkid⟩ := ctxLookup_some_mem hτ
    exact hkid ▸ hid row hrow
  simp only [get_package_list, sanitize_context, if_neg hnot]
  simp only [rawPackages, listPackagesSpec, queryPackages, chainIds,
    chainTriples, surviveIds]
  rw [filter_truthy_of_nonzero _ hnz]
  simp [hg]

/-- C1 witness: the refinement applied to the demo store at the project
level. -/
theorem C1_get_package_list_follows_spec_witness :
    get_package_list okResolver demoStore [some "project"] none none
        false =
      .ok (listPackagesSpec demoStore (padCtx [some "project"]) none
        none) :=
  C1_get_package_list_follows_spec.1 okResolver demoStore
    [some "project"] none none (by decide) (by decide) (by decide)
    (by decide)

/-! Claim C6: the add-then-remove round trip.  Infrastructure: a store
well-formedness invariant (true of every store reachable through the
library, since SQLite autoincrement ids and rowids start at 1 and only
grow), lookup-and-append lemmas, and deduplication/filter lemmas. -/

/-- Well-formedness of a store: context ids are positive, below the
autoincrement counter and package rows reference existing contexts;
rowids are positive, below the rowid counter and pairwise distinct. -/
structure Store.WF (s : Store) : Prop where
  ctxPos : ∀ cr ∈ s.contexts, 0 < cr.context_id
  ctxLt : ∀ cr ∈ s.contexts, cr.context_id < s.nextContextId
  ctxNextPos : 0 < s.nextContextId
  pkgCtx : ∀ p ∈ s.packages, ∃ cr ∈ s.contexts, p.context_id = cr.context_id
  rowPos : ∀ p ∈ s.packages, 0 < p.rowid
  rowLt : ∀ p ∈ s.packages, p.rowid < s.nextRowId
  rowNodup : (s.packages.map (fun p => p.rowid)).Nodup
  rowNextPos : 0 < s.nextRowId

/-- Whether a call's exact tuple (with the context id the call's triple
resolves to) is absent from the store's package table — the condition
under which an add is genuinely new. -/
def freshCall (s : Store) (c : PkgCall) : Bool :=
  match ctxLookup s.contexts (padCtx c.cs) with
  | some k => s.packages.all (fun p =>
      !(p.context_id == k && p.name == c.name && p.step == c.step
        && p.software == c.software))
  | none => true

/-- The relation between an add call and the package row it created:
same tuple, a context lookup in the final context table resolving to the
row's context id, and no row of the base store matching the tuple. -/
def addedRel (ctxs : List ContextRow) (base : List PackageRow)
    (c : PkgCall) (row : PackageRow) : Prop :=
  row.name = c.name ∧ row.step = c.step ∧ row.software = c.software ∧
  ctxLookup ctxs (padCtx c.cs) = some row.context_id ∧
  ∀ p ∈ base, ¬(p.context_id = row.context_id ∧ p.name = row.name ∧
    p.step = row.step ∧ p.software = row.software)

/-- The boolean exact-match test as a proposition. -/
theorem exactMatch_iff (p : PackageRow) (cid : Nat) (pn : String)
    (step sw : Option String) :
    exactMatch p cid pn step sw = true ↔
      p.name = pn ∧ p.context_id = cid ∧ p.step = step ∧
        p.software = sw := by
  simp [exactMatch, and_assoc]

/-- freshCall unfolded on a successful lookup. -/
theorem freshCall_no_match {s : Store} {c : PkgCall} {k : Nat}
    (hf : freshCall s c = true)
    (hk : ctxLookup s.contexts (padCtx c.cs) = some k) :
    ∀ p ∈ s.packages, ¬(p.context_id = k ∧ p.name = c.name ∧
      p.step = c.step ∧ p.software = c.software) := by
  intro p hp hcon
  rw [freshCall, hk] at hf
  have hall := List.all_eq_true.mp hf p hp
  obtain ⟨h1, h2, h3, h4⟩ := hcon
  simp [h1, h2, h3, h4] at hall

/-- Lookup over an appended context table: first match wins. -/
theorem ctxLookup_append (A B : List ContextRow) (c : Ctx) :
    ctxLookup (A ++ B) c = (ctxLookup A c).or (ctxLookup B c) := by
  unfold ctxLookup
  rw [List.filter_append]
  cases hA : A.filter (fun r => rowMatchesCtx r c) with
  | nil => simp
  | cons q t => simp

/-- A hit in a prefix survives any append. -/
theorem ctxLookup_append_some {A : List ContextRow} {c : Ctx} {k : Nat}
    (B : List ContextRow) (h : ctxLookup A c = some k) :
    ctxLookup (A ++ B) c = some k := by
  rw [ctxLookup_append, h]
  rfl

/-- dedupFirstAux and filtering commute, for accumulators agreeing on the
filtered-in elements. -/
theorem dedupFirstAux_filter {α : Type} [DecidableEq α] (p : α → Bool) :
    ∀ (l seen seen' : List α),
      (∀ x, p x = true → (x ∈ seen ↔ x ∈ seen')) →
      (dedupFirstAux seen l).filter p = dedupFirstAux seen' (l.filter p) := by
  intro l
  induction l with
  | nil => intro seen seen' _; rfl
  | cons x xs ih =>
    intro seen seen' h
    by_cases hp : p x = true
    · by_cases hmem : x ∈ seen
      · have hmem' : x ∈ seen' := (h x hp).mp hmem
        rw [List.filter_cons_of_pos hp]
        simp only [dedupFirstAux, if_pos hmem, if_pos hmem']
        exact ih seen seen' h
      · have hmem' : x ∉ seen' := fun hx => hmem ((h x hp).mpr hx)
        rw [List.filter_cons_of_pos hp]
        simp only [dedupFirstAux, if_neg hmem, if_neg hmem']
        rw [List.filter_cons_of_pos hp]
        have hrec := ih (x :: seen) (x :: seen') (by
          intro y hy
          simp only [List.mem_cons]
          rw [h y hy])
        rw [hrec]
    · rw [List.filter_cons_of_neg (by simp [hp])]
      by_cases hmem : x ∈ seen
      · simp only [dedupFirstAux, if_pos hmem]
        exact ih seen seen' h
      · simp only [dedupFirstAux, if_neg hmem]
        rw [List.filter_cons_of_neg (by simp [hp])]
        have hrec := ih (x :: seen) seen' (by
          intro y hy
          simp only [List.mem_cons]
          constructor
          · intro hor
            rcases hor with hyx | hys
            · subst hyx
              rw [hy] at hp
              exact absurd rfl hp
            · exact ((h y hy).mp hys)
          · intro hys
            exact Or.inr ((h y hy).mpr hys))
        rw [hrec]

/-- dict.fromkeys-style dedup commutes with filtering. -/
theorem dedupFirst_filter {α : Type} [DecidableEq α] (p : α → Bool)
    (l : List α) :
    (dedupFirst l).filter p = dedupFirst (l.filter p) :=
  dedupFirstAux_filter p l [] [] (by simp)

/-- A flatMap may ignore elements whose images are empty. -/
theorem flatMap_filter_of_null {α β : Type} (p : α → Bool)
    (f : α → List β) (h : ∀ a, p a = false → f a = []) :
    ∀ l : List α, l.flatMap f = (l.filter p).flatMap f := by
  intro l
  induction l with
  | nil => rfl
  | cons x xs ih =>
    by_cases hp : p x = true
    · rw [List.filter_cons_of_pos hp]
      simp only [List.flatMap_cons]
      rw [ih]
    · rw [List.filter_cons_of_neg (by simp [hp])]
      simp only [List.flatMap_cons]
      rw [h x (by simpa using hp), ih]
      rfl

/-- Relation between an ancestor-chain lookup in a base store and in the
same store with extra (higher-id) context rows appended: present ids are
preserved, absent ids either stay absent or resolve to a fresh id at or
above the bound. -/
def idRel (N : Nat) (o₀ o₂ : Option Nat) : Prop :=
  (∀ k, o₀ = some k → k ≠ 0 ∧ k < N ∧ o₂ = some k)
  ∧ (o₀ = none → o₂ = none ∨ ∃ m, o₂ = some m ∧ N ≤ m ∧ m ≠ 0)

/-- Under `idRel`, the surviving (truthy) ids of the extended chain,
restricted below the bound, are exactly the surviving ids of the base
chain — and those are all below the bound. -/
theorem extract_filter_lt (N : Nat) :
    ∀ (ids₀ ids₂ : List (Option Nat)),
      List.Forall₂ (idRel N) ids₀ ids₂ →
      (((ids₂.filter idTruthy).filterMap id).filter
          (fun k => decide (k < N)) =
        (ids₀.filter idTruthy).filterMap id)
      ∧ (∀ k ∈ (ids₀.filter idTruthy).filterMap id, k < N) := by
  intro ids₀ ids₂ h
  induction h with
  | nil => exact ⟨rfl, by simp⟩
  | @cons o₀ o₂ l₀ l₂ hrel htail ih =>
    cases o₀ with
    | some k =>
      obtain ⟨hk0, hkN, ho₂⟩ := hrel.1 k rfl
      subst ho₂
      have htr : idTruthy (some k) = true := by simp [idTruthy, hk0]
      constructor
      · rw [List.filter_cons_of_pos htr, List.filter_cons_of_pos htr]
        simp only [List.filterMap_cons, id]
        rw [List.filter_cons_of_pos (by simpa using hkN)]
        rw [ih.1]
      · intro m hm
        rw [List.filter_cons_of_pos htr] at hm
        simp only [List.filterMap_cons, id] at hm
        rcases List.mem_cons.mp hm with hmk | hmem
        · subst hmk
          exact hkN
        · exact ih.2 m hmem
    | none =>
      have htr : idTruthy (none : Option Nat) = false := by
        simp [idTruthy]
      rcases hrel.2 rfl with ho₂ | ⟨m, ho₂, hmN, hm0⟩
      · subst ho₂
        constructor
        · rw [List.filter_cons_of_neg (by simp [htr]),
            List.filter_cons_of_neg (by simp [htr])]
          exact ih.1
        · intro k hk
          rw [List.filter_cons_of_neg (by simp [htr])] at hk
          exact ih.2 k hk
      · subst ho₂
        have htr2 : idTruthy (some m) = true := by simp [idTruthy, hm0]
        constructor
        · rw [List.filter_cons_of_pos htr2]
          simp only [List.filterMap_cons, id]
          rw [List.filter_cons_of_neg (by simp; omega)]
          rw [List.filter_cons_of_neg (by simp [htr])]
          exact ih.1
        · intro k hk
          rw [List.filter_cons_of_neg (by simp [htr])] at hk
          exact ih.2 k hk

/-- Pointwise related maps are Forall₂-related. -/
theorem forall₂_map_map {α β γ : Type} (R : β → γ → Prop) (f : α → β)
    (g : α → γ) :
    ∀ l : List α, (∀ a ∈ l, R (f a) (g a)) →
      List.Forall₂ R (l.map f) (l.map g) := by
  intro l
  induction l with
  | nil => intro _; exact List.Forall₂.nil
  | cons x xs ih =>
    intro h
    exact List.Forall₂.cons (h x (List.mem_cons_self _ _))
      (ih (fun a ha => h a (List.mem_cons_of_mem _ ha)))

/-- A context-id query above every package's context id returns nothing. -/
theorem queryPackages_nil_of_ge (s : Store) (N : Nat)
    (hpk : ∀ p ∈ s.packages, p.context_id < N) (m : Nat) (hm : N ≤ m)
    (fs fw : Option String) : queryPackages s m fs fw = [] := by
  rw [queryPackages, List.filter_eq_nil_iff.mpr, List.map_nil]
  intro p hp
  have hlt := hpk p hp
  have hne : p.context_id ≠ m := by omega
  simp [hne]

/-- queryPackages reads only the package table. -/
theorem queryPackages_congr {s₂ s₀ : Store}
    (h : s₂.packages = s₀.packages) :
    ∀ (cid : Nat) (fs fw : Option String),
      queryPackages s₂ cid fs fw = queryPackages s₀ cid fs fw := by
  intro cid fs fw
  rw [queryPackages, queryPackages, h]

/-- With validation disabled, `add_package` is the context resolution
followed by the unconditional insert. -/
theorem add_package_false_eq (r : Resolver) (st : State)
    (cs : List (Option String)) (pn : String) (step sw : Option String) :
    add_package r st cs pn step sw false =
      match get_context_row_id st.store cs with
      | .error e => .err st e
      | .ok cidOpt =>
        let pr := if idTruthy cidOpt then (st.store, cidOpt.getD 0)
                  else st.store.insertCtx (padCtx cs)
        .ok ⟨{ pr.1 with
                packages := pr.1.packages ++
                  [⟨pr.1.nextRowId, pr.2, pn, step, sw⟩]
                nextRowId := pr.1.nextRowId + 1 },
              st.edits ++ [⟨cs, pn, step, sw, .INSTALL⟩]⟩
          pr.1.nextRowId := rfl

/-- With validation disabled, `remove_package` is the two lookups followed
by the delete. -/
theorem remove_package_false_eq (r : Resolver) (st : State)
    (cs : List (Option String)) (pn : String) (step sw : Option String) :
    remove_package r st cs pn step sw false =
      match get_context_row_id st.store cs with
      | .error e => .err st e
      | .ok cidOpt =>
        if !idTruthy cidOpt then .err st .unknownContext
        else
          let rowIdOpt := ((st.store.packages.filter (fun p =>
              exactMatch p (cidOpt.getD 0) pn step sw)).head?).map
            (fun p => p.rowid)
          if !idTruthy rowIdOpt then .err st (.unknownPackage pn)
          else
            .ok ⟨{ st.store with
                    packages := st.store.packages.filter
                      (fun p => p.rowid != rowIdOpt.getD 0) },
                  st.edits ++ [⟨cs, pn, step, sw, .UNINSTALL⟩]⟩ () := rfl

/-- Case analysis of a successful validation-disabled `add_package`. -/
theorem add_package_false_cases (r : Resolver) (st : State)
    (cs : List (Option String)) (pn : String) (step sw : Option String)
    {s' : State} {val : Nat}
    (h : add_package r st cs pn step sw false = .ok s' val) :
    s'.edits = st.edits ++ [⟨cs, pn, step, sw, .INSTALL⟩] ∧
    val = st.store.nextRowId ∧
    ((∃ cid, ctxLookup st.store.contexts (padCtx cs) = some cid ∧
        idTruthy (some cid) = true ∧
        s'.store = { st.store with
          packages := st.store.packages ++
            [⟨st.store.nextRowId, cid, pn, step, sw⟩]
          nextRowId := st.store.nextRowId + 1 })
      ∨ (idTruthy (ctxLookup st.store.contexts (padCtx cs)) = false ∧
        s'.store = { st.store with
          contexts := st.store.contexts ++
            [⟨st.store.nextContextId, (padCtx cs).1, (padCtx cs).2.1,
              (padCtx cs).2.2⟩]
          nextContextId := st.store.nextContextId + 1
          packages := st.store.packages ++
            [⟨st.store.nextRowId, st.store.nextContextId, pn, step, sw⟩]
          nextRowId := st.store.nextRowId + 1 })) := by
  rw [add_package_false_eq] at h
  cases hcr : get_context_row_id st.store cs with
  | error e =>
    rw [hcr] at h
    simp at h
  | ok cidOpt =>
    rw [hcr] at h
    simp only [] at h
    have hcl : ctxLookup st.store.contexts (padCtx cs) = cidOpt := by
      rw [get_context_row_id] at hcr
      split at hcr
      · simp at hcr
      · rename_i c hsan
        injection hcr with hh
        have : c = padCtx cs := by
          rw [sanitize_context] at hsan
          split at hsan
          · simp at hsan
          · injection hsan with hc
            exact hc.symm
        rw [← this]
        exact hh
    by_cases hb : idTruthy cidOpt = true
    · rw [if_pos hb] at h
      cases cidOpt with
      | none => simp [idTruthy] at hb
      | some cid =>
        injection h with h1 h2
        subst h1
        exact ⟨rfl, h2.symm, Or.inl ⟨cid, hcl, hb, rfl⟩⟩
    · rw [if_neg hb] at h
      injection h with h1 h2
      subst h1
      refine ⟨rfl, h2.symm, Or.inr ⟨?_, rfl⟩⟩
      rw [hcl]
      cases hx : idTruthy cidOpt
      · rfl
      · exact absurd hx hb

/-- Case analysis of a successful validation-disabled `remove_package`. -/
theorem remove_package_false_cases (r : Resolver) (st : State)
    (cs : List (Option String)) (pn : String) (step sw : Option String)
    {s' : State} {val : Unit}
    (h : remove_package r st cs pn step sw false = .ok s' val) :
    ∃ cidOpt q,
      get_context_row_id st.store cs = .ok cidOpt ∧
      idTruthy cidOpt = true ∧
      ctxLookup st.store.contexts (padCtx cs) = cidOpt ∧
      (st.store.packages.filter (fun p =>
          exactMatch p (cidOpt.getD 0) pn step sw)).head? = some q ∧
      s'.store = { st.store with
        packages := st.store.packages.filter
          (fun p => p.rowid != q.rowid) } ∧
      s'.edits = st.edits ++ [⟨cs, pn, step, sw, .UNINSTALL⟩] := by
  rw [remove_package_false_eq] at h
  cases hcr : get_context_row_id st.store cs with
  | error e =>
    rw [hcr] at h
    simp at h
  | ok cidOpt =>
    rw [hcr] at h
    simp only [] at h
    have hcl : ctxLookup st.store.contexts (padCtx cs) = cidOpt := by
      rw [get_context_row_id] at hcr
      split at hcr
      · simp at hcr
      · rename_i c hsan
        injection hcr with hh
        have : c = padCtx cs := by
          rw [sanitize_context] at hsan
          split at hsan
          · simp at hsan
          · injection hsan with hc
            exact hc.symm
        rw [← this]
        exact hh
    by_cases hb : idTruthy cidOpt = true
    · rw [if_neg (by simp [hb])] at h
      cases hq : (st.store.packages.filter (fun p =>
          exactMatch p (cidOpt.getD 0) pn step sw)).head? with
      | none =>
        rw [hq] at h
        simp [idTruthy] at h
      | some q =>
        rw [hq] at h
        by_cases hqb : idTruthy (some q.rowid) = true
        · rw [if_neg (by simp [Option.map_some', hqb])] at h
          injection h with h1 h2
          subst h1
          exact ⟨cidOpt, q, rfl, hb, hcl, hq, rfl, rfl⟩
        · have hqb' : idTruthy (some q.rowid) = false := by
            cases hx : idTruthy (some q.rowid)
            · rfl
            · exact absurd hx hqb
          rw [if_pos (by simp [Option.map_some', hqb'])] at h
          simp at h
    · have hb' : idTruthy cidOpt = false := by
        cases hx : idTruthy cidOpt
        · rfl
        · exact absurd hx hb
      rw [if_pos (by simp [hb'])] at h
      simp at h

/-- The rowid map of an append with the fresh rowid stays nodup. -/
theorem nodup_rowids_append {l : List Nat} {a : Nat}
    (h : l.Nodup) (ha : ∀ x ∈ l, x < a) : (l ++ [a]).Nodup := by
  rw [List.nodup_append]
  refine ⟨h, List.nodup_singleton _, ?_⟩
  intro x hx hx2
  rw [List.mem_singleton] at hx2
  subst hx2
  exact lt_irrefl _ (ha _ hx)

/-- A successful validation-disabled `add_package` preserves store
well-formedness. -/
theorem add_package_false_wf {r : Resolver} {st : State}
    {cs : List (Option String)} {pn : String} {step sw : Option String}
    {s' : State} {val : Nat}
    (hwf : st.store.WF)
    (h : add_package r st cs pn step sw false = .ok s' val) :
    s'.store.WF := by
  obtain ⟨-, -, hcase⟩ := add_package_false_cases r st cs pn step sw h
  rcases hcase with ⟨cid, hcl, -, hs⟩ | ⟨-, hs⟩
  · rw [hs]
    obtain ⟨cr, hcr, -, hcrid⟩ := ctxLookup_some_mem hcl
    refine ⟨hwf.ctxPos, hwf.ctxLt, hwf.ctxNextPos, ?_, ?_, ?_, ?_,
      Nat.succ_pos _⟩
    · intro p hp
      rcases List.mem_append.mp hp with hold | hnew
      · exact hwf.pkgCtx p hold
      · rw [List.mem_singleton] at hnew
        subst hnew
        exact ⟨cr, hcr, hcrid.symm⟩
    · intro p hp
      rcases List.mem_append.mp hp with hold | hnew
      · exact hwf.rowPos p hold
      · rw [List.mem_singleton] at hnew
        subst hnew
        exact hwf.rowNextPos
    · intro p hp
      rcases List.mem_append.mp hp with hold | hnew
      · exact Nat.lt_succ_of_lt (hwf.rowLt p hold)
      · rw [List.mem_singleton] at hnew
        subst hnew
        exact Nat.lt_succ_self _
    · rw [List.map_append]
      simp only [List.map_cons, List.map_nil]
      refine nodup_rowids_append hwf.rowNodup ?_
      intro x hx
      obtain ⟨p, hp, hpx⟩ := List.mem_map.mp hx
      exact hpx ▸ hwf.rowLt p hp
  · rw [hs]
    refine ⟨?_, ?_, Nat.succ_pos _, ?_, ?_, ?_, ?_, Nat.succ_pos _⟩
    · intro cr hcr
      rcases List.mem_append.mp hcr with hold | hnew
      · exact hwf.ctxPos cr hold
      · rw [List.mem_singleton] at hnew
        subst hnew
        exact hwf.ctxNextPos
    · intro cr hcr
      rcases List.mem_append.mp hcr with hold | hnew
      · exact Nat.lt_succ_of_lt (hwf.ctxLt cr hold)
      · rw [List.mem_singleton] at hnew
        subst hnew
        exact Nat.lt_succ_self _
    · intro p hp
      rcases List.mem_append.mp hp with hold | hnew
      · obtain ⟨cr, hcr, hcrid⟩ := hwf.pkgCtx p hold
        exact ⟨cr, List.mem_append_left _ hcr, hcrid⟩
      · rw [List.mem_singleton] at hnew
        subst hnew
        exact ⟨_, List.mem_append_right _ (List.mem_singleton_self _),
          rfl⟩
    · intro p hp
      rcases List.mem_append.mp hp with hold | hnew
      · exact hwf.rowPos p hold
      · rw [List.mem_singleton] at hnew
        subst hnew
        exact hwf.rowNextPos
    · intro p hp
      rcases List.mem_append.mp hp with hold | hnew
      · exact Nat.lt_succ_of_lt (hwf.rowLt p hold)
      · rw [List.mem_singleton] at hnew
        subst hnew
        exact Nat.lt_succ_self _
    · rw [List.map_append]
      simp only [List.map_cons, List.map_nil]
      refine nodup_rowids_append hwf.rowNodup ?_
      intro x hx
      obtain ⟨p, hp, hpx⟩ := List.mem_map.mp hx
      exact hpx ▸ hwf.rowLt p hp

/-- With positive context ids, a falsy lookup is a missed lookup. -/
theorem ctxLookup_none_of_falsy {ctxs : List ContextRow} {c : Ctx}
    (hpos : ∀ cr ∈ ctxs, 0 < cr.context_id)
    (hfal : idTruthy (ctxLookup ctxs c) = false) :
    ctxLookup ctxs c = none := by
  cases hcl : ctxLookup ctxs c with
  | none => rfl
  | some k =>
    exfalso
    obtain ⟨row, hrow, -, hkid⟩ := ctxLookup_some_mem hcl
    rw [hcl] at hfal
    simp [idTruthy] at hfal
    subst hfal
    exact absurd (hkid ▸ hpos row hrow) (lt_irrefl 0)

/-- A freshly inserted context row is found by its own triple. -/
theorem ctxLookup_singleton_self (N : Nat) (c : Ctx) :
    ctxLookup [⟨N, c.1, c.2.1, c.2.2⟩] c = some N := by
  simp [ctxLookup, rowMatchesCtx]

/-- Running a sequence of fresh, validation-disabled adds appends fresh
context rows and exactly one package row per call, each related to its
call by `addedRel` against the base packages. -/
theorem runAdds_decomp (r : Resolver) :
    ∀ (calls : List PkgCall) (s0 : Store) (E : List ContextRow)
      (st s1 : State),
      st.store.WF →
      (∀ cr ∈ s0.contexts, cr.context_id < s0.nextContextId) →
      (∀ p ∈ s0.packages, ∃ cr ∈ s0.contexts,
        p.context_id = cr.context_id) →
      st.store.contexts = s0.contexts ++ E →
      (∀ e ∈ E, s0.nextContextId ≤ e.context_id) →
      s0.nextContextId ≤ st.store.nextContextId →
      (∀ c ∈ calls, freshCall s0 c = true) →
      (∀ c ∈ calls, c.validate = false) →
      runCalls r st (addCalls calls) = .ok s1 () →
      ∃ E' rows,
        s1.store.contexts = st.store.contexts ++ E' ∧
        (∀ e ∈ E', st.store.nextContextId ≤ e.context_id) ∧
        st.store.nextContextId ≤ s1.store.nextContextId ∧
        s1.store.packages = st.store.packages ++ rows ∧
        s1.store.WF ∧
        List.Forall₂ (addedRel s1.store.contexts s0.packages) calls rows := by
  intro calls
  induction calls with
  | nil =>
    intro s0 E st s1 hwf hc0 hp0 hctx hE hN hfresh hval hrun
    simp only [addCalls, List.map_nil, runCalls] at hrun
    injection hrun with h1 h2
    subst h1
    exact ⟨[], [], by simp, by simp, le_refl _, by simp, hwf,
      List.Forall₂.nil⟩
  | cons c rest ih =>
    intro s0 E st s1 hwf hc0 hp0 hctx hE hN hfresh hval hrun
    simp only [addCalls, List.map_cons, runCalls] at hrun
    rw [hval c (List.mem_cons_self _ _)] at hrun
    split at hrun
    · simp at hrun
    · rename_i st₂ v₂ heq
      obtain ⟨hedits, hvr, hcase⟩ :=
        add_package_false_cases r st c.cs c.name c.step c.software heq
      have hwf₂ : st₂.store.WF := add_package_false_wf hwf heq
      rcases hcase with ⟨cid, hcl, htr, hs⟩ | ⟨hfal, hs⟩
      · -- context already present: the context table is unchanged
        obtain ⟨E', rows', hctx', hE', hN', hpkg', hwf1, hrel⟩ :=
          ih s0 E st₂ s1 hwf₂ hc0 hp0 (by rw [hs]; exact hctx) hE
            (by rw [hs]; exact hN)
            (fun x hx => hfresh x (List.mem_cons_of_mem _ hx))
            (fun x hx => hval x (List.mem_cons_of_mem _ hx))
            (by simpa [addCalls] using hrun)
        refine ⟨E', ⟨st.store.nextRowId, cid, c.name, c.step,
          c.software⟩ :: rows', ?_, ?_, ?_, ?_, hwf1, ?_⟩
        · rw [hctx', hs]
        · intro e he
          have := hE' e he
          rw [hs] at this
          exact this
        · have := hN'
          rw [hs] at this
          exact this
        · rw [hpkg', hs]
          simp
        · refine List.Forall₂.cons ?_ hrel
          refine ⟨rfl, rfl, rfl, ?_, ?_⟩
          · rw [hctx']
            rw [hs]
            exact ctxLookup_append_some E' hcl
          · -- freshness against the base packages
            rw [hctx] at hcl
            rw [ctxLookup_append] at hcl
            cases hc0l : ctxLookup s0.contexts (padCtx c.cs) with
            | some k =>
              rw [hc0l] at hcl
              have hkc : k = cid := by
                simp [Option.or] at hcl
                exact hcl
              subst hkc
              exact freshCall_no_match
                (hfresh c (List.mem_cons_self _ _)) hc0l
            | none =>
              rw [hc0l] at hcl
              simp only [Option.or] at hcl
              obtain ⟨row, hrow, -, hkid⟩ := ctxLookup_some_mem hcl
              have hge : s0.nextContextId ≤ cid := hkid ▸ hE row hrow
              intro p hp hcon
              obtain ⟨cr, hcr, hcrid⟩ := hp0 p hp
              have hlt : p.context_id < s0.nextContextId :=
                hcrid ▸ hc0 cr hcr
              obtain ⟨h1, -⟩ := hcon
              have h1' : p.context_id = cid := h1
              omega
      · -- context inserted
        obtain ⟨E', rows', hctx', hE', hN', hpkg', hwf1, hrel⟩ :=
          ih s0 (E ++ [⟨st.store.nextContextId, (padCtx c.cs).1,
              (padCtx c.cs).2.1, (padCtx c.cs).2.2⟩]) st₂ s1 hwf₂ hc0 hp0
            (by rw [hs]; rw [hctx]; simp)
            (by
              intro e he
              rcases List.mem_append.mp he with hold | hnew
              · exact hE e hold
              · rw [List.mem_singleton] at hnew
                subst hnew
                exact hN)
            (by rw [hs]; exact le_trans hN (Nat.le_succ _))
            (fun x hx => hfresh x (List.mem_cons_of_mem _ hx))
            (fun x hx => hval x (List.mem_cons_of_mem _ hx))
            (by simpa [addCalls] using hrun)
        have hlookN : ctxLookup st₂.store.contexts (padCtx c.cs) =
            some st.store.nextContextId := by
          rw [hs]
          show ctxLookup (st.store.contexts ++
            [⟨st.store.nextContextId, (padCtx c.cs).1, (padCtx c.cs).2.1,
              (padCtx c.cs).2.2⟩]) (padCtx c.cs) = _
          rw [ctxLookup_append,
            ctxLookup_none_of_falsy hwf.ctxPos hfal,
            ctxLookup_singleton_self]
          rfl
        refine ⟨⟨st.store.nextContextId, (padCtx c.cs).1,
            (padCtx c.cs).2.1, (padCtx c.cs).2.2⟩ :: E',
          ⟨st.store.nextRowId, st.store.nextContextId, c.name, c.step,
            c.software⟩ :: rows', ?_, ?_, ?_, ?_, hwf1, ?_⟩
        · rw [hctx', hs]
          simp
        · intro e he
          rcases List.mem_cons.mp he with hnew | hold
          · subst hnew
            exact le_refl _
          · have := hE' e hold
            rw [hs] at this
            exact le_trans (Nat.le_succ _) this
        · have := hN'
          rw [hs] at this
          exact le_trans (Nat.le_succ _) this
        · rw [hpkg', hs]
          simp
        · refine List.Forall₂.cons ?_ hrel
          refine ⟨rfl, rfl, rfl, ?_, ?_⟩
          · rw [hctx']
            exact ctxLookup_append_some E' hlookN
          · intro p hp hcon
            obtain ⟨cr, hcr, hcrid⟩ := hp0 p hp
            have hlt : p.context_id < s0.nextContextId :=
              hcrid ▸ hc0 cr hcr
            have hge : s0.nextContextId ≤ st.store.nextContextId := hN
            obtain ⟨h1, -⟩ := hcon
            have h1' : p.context_id = st.store.nextContextId := h1
            omega

/-- Removing, in order and with validation disabled, the tuples of the
rows appended after `base` deletes exactly those rows: each removal's
first exact match is the corresponding appended row, because the base
holds no matching row and rowids are unique. -/
theorem runRemoves_restore (r : Resolver) :
    ∀ (calls : List PkgCall) (rows base : List PackageRow)
      (ctxs : List ContextRow) (st s2 : State),
      st.store.contexts = ctxs →
      st.store.packages = base ++ rows →
      ((base ++ rows).map (fun p => p.rowid)).Nodup →
      (∀ p ∈ base ++ rows, 0 < p.rowid) →
      (∀ cr ∈ ctxs, 0 < cr.context_id) →
      List.Forall₂ (addedRel ctxs base) calls rows →
      (∀ c ∈ calls, c.validate = false) →
      runCalls r st (removeCalls calls) = .ok s2 () →
      s2.store.packages = base ∧ s2.store.contexts = ctxs := by
  intro calls
  induction calls with
  | nil =>
    intro rows base ctxs st s2 hctx hpkg hnd hpos hcpos hrel hval hrun
    cases hrel
    simp only [removeCalls, List.map_nil, runCalls] at hrun
    injection hrun with h1 h2
    subst h1
    constructor
    · rw [hpkg]
      simp
    · exact hctx
  | cons c rest ih =>
    intro rows base ctxs st s2 hctx hpkg hnd hpos hcpos hrel hval hrun
    cases hrel with
    | cons hr htail =>
      rename_i row rows'
      obtain ⟨hname, hstep, hsw, hlook, hnomatch⟩ := hr
      simp only [removeCalls, List.map_cons, runCalls] at hrun
      rw [hval c (List.mem_cons_self _ _)] at hrun
      split at hrun
      · simp at hrun
      · rename_i st₂ v₂ heq
        obtain ⟨cidOpt, q, hcr, htr, hcl2, hq, hs, hedits⟩ :=
          remove_package_false_cases r st c.cs c.name c.step c.software
            heq
        have hcid : cidOpt = some row.context_id := by
          rw [← hcl2, hctx, hlook]
        -- distinct rowids around the appended row
        have hmapnd := hnd
        rw [List.map_append] at hmapnd
        obtain ⟨hnd1, hnd2, hdisj⟩ := List.nodup_append.mp hmapnd
        simp only [List.map_cons] at hnd2 hdisj
        have hbase_ne : ∀ p ∈ base, p.rowid ≠ row.rowid := by
          intro p hp he
          exact hdisj (List.mem_map_of_mem _ hp)
            (by rw [he]; exact List.mem_cons_self _ _)
        have hrows_ne : ∀ p ∈ rows', p.rowid ≠ row.rowid := by
          intro p hp he
          exact (List.nodup_cons.mp hnd2).1
            (by rw [← he]; exact List.mem_map_of_mem _ hp)
        -- the SELECT's first match is the appended row
        have hbase_nil : base.filter (fun p =>
            exactMatch p row.context_id c.name c.step c.software) = [] := by
          apply List.filter_eq_nil_iff.mpr
          intro p hp hm
          have := (exactMatch_iff p row.context_id c.name c.step
            c.software).mp (by simpa using hm)
          exact hnomatch p hp
            ⟨this.2.1, hname ▸ this.1, hstep ▸ this.2.2.1,
              hsw ▸ this.2.2.2⟩
        have hrowm : exactMatch row row.context_id c.name c.step
            c.software = true :=
          (exactMatch_iff _ _ _ _ _).mpr ⟨hname, rfl, hstep, hsw⟩
        have hqrow : q = row := by
          rw [hpkg, hcid] at hq
          simp only [Option.getD_some] at hq
          rw [List.filter_append, hbase_nil,
            List.filter_cons_of_pos (p := fun p =>
              exactMatch p row.context_id c.name c.step c.software)
              hrowm] at hq
          simp at hq
          exact hq.symm
        subst hqrow
        -- the DELETE removes exactly the appended row
        have hdel : st₂.store.packages = base ++ rows' := by
          rw [hs]
          show (st.store.packages.filter
            (fun p => p.rowid != q.rowid)) = base ++ rows'
          rw [hpkg, List.filter_append,
            List.filter_cons_of_neg (by simp)]
          rw [List.filter_eq_self.mpr (fun p hp => by
              simpa using hbase_ne p hp),
            List.filter_eq_self.mpr (fun p hp => by
              simpa using hrows_ne p hp)]
        have hctx₂ : st₂.store.contexts = ctxs := by
          rw [hs]
          exact hctx
        refine ih rows' base ctxs st₂ s2 hctx₂ hdel ?_ ?_ hcpos htail
          (fun x hx => hval x (List.mem_cons_of_mem _ hx))
          (by simpa [removeCalls] using hrun)
        · rw [List.map_append]
          rw [List.nodup_append]
          exact ⟨hnd1, (List.nodup_cons.mp hnd2).2,
            fun x hx hx2 => hdisj hx (List.mem_cons_of_mem _ hx2)⟩
        · intro p hp
          apply hpos p
          rcases List.mem_append.mp hp with h1 | h1
          · exact List.mem_append_left _ h1
          · exact List.mem_append_right _ (List.mem_cons_of_mem _ h1)

/-- Appending only fresh, empties-only context rows (ids at or above the
autoincrement bound, hence referenced by no package row) does not change
any `get_package_list` result. -/
theorem get_package_list_ctx_extension
    (s0 s2 : Store) (E : List ContextRow)
    (hctx : s2.contexts = s0.contexts ++ E)
    (hpkg : s2.packages = s0.packages)
    (hcpos : ∀ cr ∈ s0.contexts, 0 < cr.context_id)
    (hclt : ∀ cr ∈ s0.contexts, cr.context_id < s0.nextContextId)
    (hpk : ∀ p ∈ s0.packages, ∃ cr ∈ s0.contexts,
      p.context_id = cr.context_id)
    (hE : ∀ e ∈ E, s0.nextContextId ≤ e.context_id)
    (hEpos : ∀ e ∈ E, 0 < e.context_id) :
    ∀ (r : Resolver) (cs : List (Option String))
      (step sw : Option String) (v : Bool),
      get_package_list r s2 cs step sw v =
        get_package_list r s0 cs step sw v := by
  have hraw : ∀ (c : Ctx) (step sw : Option String),
      rawPackages s2 c step sw = rawPackages s0 c step sw := by
    intro c step sw
    have hpklt : ∀ p ∈ s0.packages, p.context_id < s0.nextContextId := by
      intro p hp
      obtain ⟨cr, hcr, he⟩ := hpk p hp
      exact he ▸ hclt cr hcr
    have hidrel : List.Forall₂ (idRel s0.nextContextId)
        (chainIds s0 c) (chainIds s2 c) := by
      rw [chainIds, chainIds]
      apply forall₂_map_map
      intro τ _
      refine ⟨?_, ?_⟩
      · intro k hk
        obtain ⟨row, hrow, -, hkid⟩ := ctxLookup_some_mem hk
        have hkpos : 0 < k := hkid ▸ hcpos row hrow
        refine ⟨by omega, hkid ▸ hclt row hrow, ?_⟩
        rw [hctx]
        exact ctxLookup_append_some E hk
      · intro hnone
        rw [hctx, ctxLookup_append, hnone, Option.none_or]
        cases hEl : ctxLookup E τ with
        | none => exact Or.inl rfl
        | some m =>
          obtain ⟨row, hrow, -, hkid⟩ := ctxLookup_some_mem hEl
          refine Or.inr ⟨m, rfl, hkid ▸ hE row hrow, ?_⟩
          have := hkid ▸ hEpos row hrow
          omega
    have hext := extract_filter_lt s0.nextContextId _ _ hidrel
    rw [rawPackages, rawPackages]
    simp only [queryPackages_congr hpkg]
    have hfnull : ∀ m, (decide (m < s0.nextContextId)) = false →
        (axisGroups step sw).flatMap (fun g =>
          queryPackages s0 m g.1 g.2) = [] := by
      intro m hm
      have hge : s0.nextContextId ≤ m := by
        have := of_decide_eq_false hm
        omega
      rw [List.flatMap_eq_nil_iff]
      exact fun g _ => queryPackages_nil_of_ge s0 s0.nextContextId
        hpklt m hge g.1 g.2
    calc (surviveIds (chainIds s2 c)).flatMap (fun cid =>
          (axisGroups step sw).flatMap (fun g =>
            queryPackages s0 cid g.1 g.2))
        = ((surviveIds (chainIds s2 c)).filter
            (fun k => decide (k < s0.nextContextId))).flatMap (fun cid =>
          (axisGroups step sw).flatMap (fun g =>
            queryPackages s0 cid g.1 g.2)) :=
          flatMap_filter_of_null _ _ hfnull _
      _ = (dedupFirst ((((chainIds s2 c).filter idTruthy).filterMap
            id).filter (fun k => decide (k < s0.nextContextId)))).flatMap
            (fun cid => (axisGroups step sw).flatMap (fun g =>
              queryPackages s0 cid g.1 g.2)) := by
          rw [surviveIds, dedupFirst_filter]
      _ = (surviveIds (chainIds s0 c)).flatMap (fun cid =>
            (axisGroups step sw).flatMap (fun g =>
              queryPackages s0 cid g.1 g.2)) := by
          rw [hext.1]
          rfl
  intro r cs step sw v
  rw [get_package_list, get_package_list]
  cases hsan : sanitize_context cs with
  | error e => rfl
  | ok c => simp only [hraw]

/-- The starting store of the round-trip counterexample: `pkgA` then
`pkgB` at studio scope. -/
def cexStore : Store :=
  ⟨[⟨1, none, none, none⟩],
    [⟨1, 1, "pkgA", none, none⟩, ⟨2, 1, "pkgB", none, none⟩], [], 2, 3⟩

/-- The counterexample session. -/
def cexState : State := ⟨cexStore, []⟩

/-- One add of a tuple already present in the store, then its removal. -/
def cexCalls : List PkgCall := [⟨[], "pkgA", none, none, false⟩]

/-- After the add: a third row duplicating the first tuple. -/
def cexMid : State :=
  ⟨⟨[⟨1, none, none, none⟩],
      [⟨1, 1, "pkgA", none, none⟩, ⟨2, 1, "pkgB", none, none⟩,
        ⟨3, 1, "pkgA", none, none⟩], [], 2, 4⟩,
    [⟨[], "pkgA", none, none, .INSTALL⟩]⟩

/-- After the remove: the DELETE took the oldest matching rowid, so the
surviving `pkgA` row now sits after `pkgB`. -/
def cexEnd : State :=
  ⟨⟨[⟨1, none, none, none⟩],
      [⟨2, 1, "pkgB", none, none⟩, ⟨3, 1, "pkgA", none, none⟩], [], 2, 4⟩,
    [⟨[], "pkgA", none, none, .INSTALL⟩,
      ⟨[], "pkgA", none, none, .UNINSTALL⟩]⟩

/-- C6 counterexample: a successful add followed by the removal of the
same tuple (validation disabled) does not return `get_package_list` to
its pre-sequence value — the remove deletes the oldest duplicate row, so
the returned order flips from `(pkgA, pkgB)` to `(pkgB, pkgA)`. -/
theorem C6_cex_round_trip_reorders :
    runCalls okResolver cexState (addCalls cexCalls) = .ok cexMid ()
    ∧ runCalls okResolver cexMid (removeCalls cexCalls) = .ok cexEnd ()
    ∧ get_package_list okResolver cexState.store [] none none false =
        .ok ["pkgA", "pkgB"]
    ∧ get_package_list okResolver cexEnd.store [] none none false =
        .ok ["pkgB", "pkgA"]
    ∧ get_package_list okResolver cexEnd.store [] none none false ≠
        get_package_list okResolver cexState.store [] none none false := by
  refine ⟨by decide, by decide, rfl, rfl, ?_⟩
  intro h
  exact absurd (Except.ok.inj h) (by decide)

/-- C6 (amended): for every well-formed starting store and every finite
sequence of successful validation-disabled `add_package` calls followed
by `remove_package` calls for the same `(context, name, step, software)`
tuples in the same order, **provided each added tuple is fresh** (no row
matching the tuple at the triple's resolved context id exists in the
starting store), every `get_package_list` query returns exactly the same
result afterwards as it did before the adds. -/
theorem C6_round_trip_of_fresh (r : Resolver) (calls : List PkgCall)
    (st s1 s2 : State)
    (hwf : st.store.WF)
    (hfresh : ∀ c ∈ calls, freshCall st.store c = true)
    (hval : ∀ c ∈ calls, c.validate = false)
    (hadd : runCalls r st (addCalls calls) = .ok s1 ())
    (hrem : runCalls r s1 (removeCalls calls) = .ok s2 ()) :
    ∀ (r' : Resolver) (cs : List (Option String))
      (step sw : Option String) (v : Bool),
      get_package_list r' s2.store cs step sw v =
        get_package_list r' st.store cs step sw v := by
  obtain ⟨E', rows, hctx1, hE', hN1, hpkg1, hwf1, hrel⟩ :=
    runAdds_decomp r calls st.store [] st s1 hwf hwf.ctxLt hwf.pkgCtx
      (by simp) (by simp) (le_refl _) hfresh hval hadd
  obtain ⟨hpkg2, hctx2⟩ :=
    runRemoves_restore r calls rows st.store.packages
      s1.store.contexts s1 s2 rfl hpkg1
      (by rw [← hpkg1]; exact hwf1.rowNodup)
      (by rw [← hpkg1]; exact hwf1.rowPos)
      hwf1.ctxPos hrel hval hrem
  exact get_package_list_ctx_extension st.store s2.store E'
    (hctx2.trans hctx1) hpkg2 hwf.ctxPos hwf.ctxLt hwf.pkgCtx hE'
    (fun e he => lt_of_lt_of_le hwf.ctxNextPos (hE' e he))

/-- The round-trip witness calls: one fresh add-then-remove pair. -/
def rtCalls : List PkgCall := [⟨[], "pkgW", none, none, false⟩]

/-- After the witness add. -/
def rtMid : State :=
  ⟨⟨[⟨1, none, none, none⟩], [⟨1, 1, "pkgW", none, none⟩], [], 2, 2⟩,
    [⟨[], "pkgW", none, none, .INSTALL⟩]⟩

/-- After the witness remove. -/
def rtEnd : State :=
  ⟨⟨[⟨1, none, none, none⟩], [], [], 2, 2⟩,
    [⟨[], "pkgW", none, none, .INSTALL⟩,
      ⟨[], "pkgW", none, none, .UNINSTALL⟩]⟩

/-- C6 witness: the amended round-trip theorem applied to a concrete
fresh add-then-remove pair on the initialized store. -/
theorem C6_round_trip_of_fresh_witness :
    get_package_list okResolver rtEnd.store [] none none false =
      get_package_list okResolver demoStart.store [] none none false :=
  C6_round_trip_of_fresh okResolver rtCalls demoStart rtMid rtEnd
    ⟨by decide, by decide, by decide, by decide, by decide, by decide,
      by decide, by decide⟩
    (by decide) (by decide) (by decide) (by decide)
    okResolver [] none none false

end ProductionResolver
